import Mathlib

/-!
# go-practice: album REST service and file-backed wiki

A shallow embedding of the two programs of the repository,
`src/backend/main.go` (the in-memory album API written with Gin) and
`src/web-app/main.go` (the wiki that stores pages as text files), followed by
the properties proved about them.

Conventions of the embedding

* A Go `string` is a Lean `String`, a sequence of Unicode characters, which is
  how package `regexp` reads a string; a Go `[]byte` is a `List UInt8`.
* An `error` is its text.
* Package-level mutable variables (`albums`) and the file system are threaded
  through the functions explicitly: a handler takes the current state and
  returns the new one.
* A response writer is the list of library calls made on it, in order, each
  with its arguments (`c.IndentedJSON(code, obj)`, `http.Redirect(w, r, url,
  code)`, ...). What a handler "responds" is what it appends to that list.
* Library functions whose result depends on data outside the repository
  (the JSON decoder behind `c.BindJSON`, the parsed template set) are
  parameters.
-/

namespace backend

/-! ## `src/backend/main.go` -/

/-- The `album` struct. `Price` is a `float64` that the program only stores and
echoes, never computes with; it is represented by the value its decimal
literal denotes. -/
structure album where
  ID : String
  Title : String
  Artist : String
  Price : ℚ
  deriving DecidableEq

/-- Values handed to `c.IndentedJSON`: one album, the album slice, or a
`gin.H` map (given by its key/value pairs). -/
inductive JSONValue where
  | record (a : album)
  | array (l : List album)
  | H (m : List (String × String))
  deriving DecidableEq

/-- One library call made on the response of a `gin.Context`. -/
inductive Written where
  | IndentedJSON (code : Nat) (obj : JSONValue)
  | AbortWithError (code : Nat) (err : String)
  | Fprint (text : String)
  deriving DecidableEq

/-- The part of `gin.Context` the handlers use: the path parameters and the
body of the request, and the calls made so far on the response. -/
structure Context where
  Params : List (String × String)
  Body : String
  Writer : List Written
  deriving DecidableEq

def StatusOK : Nat := 200
def StatusCreated : Nat := 201
def StatusBadRequest : Nat := 400
def StatusNotFound : Nat := 404

/-- Gin `c.Param(key)`: the value of the first path parameter named `key`, or
the empty string. -/
def Context.Param (c : Context) (key : String) : String :=
  match c.Params.find? (fun kv => kv.1 == key) with
  | some kv => kv.2
  | none => ""

/-- Gin `c.IndentedJSON(code, obj)`: renders `obj` with status `code`. -/
def Context.IndentedJSON (c : Context) (code : Nat) (obj : JSONValue) : Context :=
  { c with Writer := c.Writer ++ [Written.IndentedJSON code obj] }

/-- Gin `c.BindJSON(&a)`: decodes the request body; when decoding fails the
library itself aborts the request with status 400 and hands the error back.
The JSON decoder is the parameter `decode`. -/
def Context.BindJSON (decode : String → Except String album) (c : Context) :
    Context × Except String album :=
  match decode c.Body with
  | Except.ok a => (c, Except.ok a)
  | Except.error e =>
    ({ c with Writer := c.Writer ++ [Written.AbortWithError StatusBadRequest e] },
      Except.error e)

/-- The initial value of the package variable `albums`. -/
def albums : List album :=
  [ { ID := "1", Title := "Blue Train", Artist := "John Coltrane", Price := 56.99 },
    { ID := "2", Title := "Jeru", Artist := "Gerry Mulligan", Price := 17.99 },
    { ID := "3", Title := "Sarah Vaughan and Clifford Brown", Artist := "Sarah Vaughan",
      Price := 39.99 } ]

/-- Handler `getAlbums`: responds 200 with the whole slice. -/
def getAlbums (s : List album) (c : Context) : List album × Context :=
  (s, c.IndentedJSON StatusOK (JSONValue.array s))

/-- Handler `postAlbums`: binds the body to `newAlbum`; returns at once when
that fails, otherwise appends `newAlbum` and responds 201 with it. -/
def postAlbums (decode : String → Except String album) (s : List album) (c : Context) :
    List album × Context :=
  match c.BindJSON decode with
  | (c1, Except.error _) => (s, c1)
  | (c1, Except.ok newAlbum) =>
    (s ++ [newAlbum], c1.IndentedJSON StatusCreated (JSONValue.record newAlbum))

/-- The `for _, a := range albums` loop of `getAlbumByID`: the first album
whose `ID` equals `id` ends the loop with a response, and when the slice is
exhausted the 404 response after the loop is written. -/
def getAlbumByID.loop (id : String) (c : Context) : List album → Context
  | [] => c.IndentedJSON StatusNotFound (JSONValue.H [("message", "album not found")])
  | a :: rest => if a.ID = id then c.IndentedJSON StatusOK (JSONValue.record a)
      else getAlbumByID.loop id c rest

/-- Handler `getAlbumByID`. -/
def getAlbumByID (s : List album) (c : Context) : List album × Context :=
  (s, getAlbumByID.loop (c.Param "id") c s)

/-- Handler `welcome`: prints a fixed text. -/
def welcome (s : List album) (c : Context) : List album × Context :=
  (s, { c with Writer := c.Writer ++ [Written.Fprint "welcome!"] })

/-- The routes registered in `main`, each with the context of one request. -/
inductive Request where
  | GET_albums (c : Context)
  | GET_albums_id (c : Context)
  | POST_albums (c : Context)
  | GET_root (c : Context)

/-- Serving one request: the router calls the handler of the route. -/
def serve (decode : String → Except String album) (s : List album) :
    Request → List album × Context
  | Request.GET_albums c => getAlbums s c
  | Request.GET_albums_id c => getAlbumByID s c
  | Request.POST_albums c => postAlbums decode s c
  | Request.GET_root c => welcome s c

/-- Serving a sequence of requests one after the other; the result is the
value of `albums` afterwards. -/
def serveAll (decode : String → Except String album) (s : List album) :
    List Request → List album
  | [] => s
  | r :: rs => serveAll decode (serve decode s r).1 rs

/-- The records of the `POST /albums` requests of a sequence whose body
decodes, in request order. -/
def posted (decode : String → Except String album) : List Request → List album
  | [] => []
  | Request.POST_albums c :: rs =>
    match decode c.Body with
    | Except.ok a => a :: posted decode rs
    | Except.error _ => posted decode rs
  | _ :: rs => posted decode rs

/-! ### Vocabulary of the statements and sample inputs -/

/-- Record `a` is the first record of `L`, in list order, whose `ID` is `id`. -/
def FirstWithID (L : List album) (id : String) (a : album) : Prop :=
  ∃ pre post, L = pre ++ a :: post ∧ (∀ x ∈ pre, x.ID ≠ id) ∧ a.ID = id

/-- A fresh context of a request `GET /albums/:id`. -/
def ctxID (id : String) : Context :=
  { Params := [("id", id)], Body := "", Writer := [] }

/-- A fresh context of a request `POST /albums` with the given body. -/
def ctxBody (body : String) : Context :=
  { Params := [], Body := body, Writer := [] }

/-- The body of the sample `POST /albums` request. -/
def sampleBody : String :=
  "\x7b\"id\":\"4\",\"title\":\"T\",\"artist\":\"A\",\"price\":1.0\x7d"

/-- The record the sample body denotes. -/
def sampleAlbum : album :=
  { ID := "4", Title := "T", Artist := "A", Price := 1.0 }

/-- A decoder that knows the sample body and rejects every other text. -/
def sampleDecode (body : String) : Except String album :=
  if body = sampleBody then Except.ok sampleAlbum else Except.error "invalid character"

end backend

namespace webapp

/-! ## `src/web-app/main.go` -/

/-- The `Page` struct. -/
structure Page where
  Title : String
  Body : List UInt8
  deriving DecidableEq

/-- The file system, as a map from file name to what reading that name gives:
the bytes of the file, or the error the read reports (no such file, or any
other). `writeErr` tells for which names the operating system refuses a write
and with which error. -/
structure FS where
  files : String → Except String (List UInt8)
  writeErr : String → Option String

/-- Go `os.ReadFile(name)`. -/
def os.ReadFile (fs : FS) (name : String) : Except String (List UInt8) :=
  fs.files name

/-- Go `os.WriteFile(name, data, perm)`: when the write is refused the error is
returned and the file system stays as it was; otherwise the file `name` is
created or truncated and holds exactly `data` afterwards, all other names
keeping what they had. -/
def os.WriteFile (fs : FS) (name : String) (data : List UInt8) (_perm : Nat) :
    FS × Option String :=
  match fs.writeErr name with
  | some err => (fs, some err)
  | none =>
    ({ fs with files := fun n => if n = name then Except.ok data else fs.files n }, none)

/-- Method `(p *Page) save()`; the result is the new file system and the error,
if any. -/
def Page.save (p : Page) (fs : FS) : FS × Option String :=
  let filename := "data/" ++ p.Title ++ ".txt"
  os.WriteFile fs filename p.Body 0o600

/-- Function `loadPage`. -/
def loadPage (fs : FS) (title : String) : Except String Page :=
  let filename := "data/" ++ title ++ ".txt"
  match os.ReadFile fs filename with
  | Except.error err => Except.error err
  | Except.ok body => Except.ok { Title := title, Body := body }

/-- One library call made on an `http.ResponseWriter`. -/
inductive Call where
  | Redirect (url : String) (code : Nat)
  | Error (msg : String) (code : Nat)
  | Write (out : List UInt8)
  deriving DecidableEq

/-- An `http.ResponseWriter`: the calls made on it so far. -/
abbrev ResponseWriter := List Call

/-- The part of `*http.Request` the handlers use: `r.URL.Path` and the parsed
form values. -/
structure Request where
  Path : String
  Form : List (String × String)
  deriving DecidableEq

/-- Go `r.FormValue(key)`: the first value of the form field `key`, or the empty
string. -/
def Request.FormValue (r : Request) (key : String) : String :=
  match r.Form.find? (fun kv => kv.1 == key) with
  | some kv => kv.2
  | none => ""

def StatusFound : Nat := 302
def StatusNotFound : Nat := 404
def StatusInternalServerError : Nat := 500

/-- Go `http.Redirect(w, r, url, code)`. -/
def http.Redirect (w : ResponseWriter) (_r : Request) (url : String) (code : Nat) :
    ResponseWriter :=
  w ++ [Call.Redirect url code]

/-- Go `http.Error(w, msg, code)`. -/
def http.Error (w : ResponseWriter) (msg : String) (code : Nat) : ResponseWriter :=
  w ++ [Call.Error msg code]

/-- Go `http.NotFound(w, r)`: the 404 error reply of the library. -/
def http.NotFound (w : ResponseWriter) (_r : Request) : ResponseWriter :=
  http.Error w "404 page not found" StatusNotFound

/-- Go `[]byte(s)`: the bytes of a string. -/
def bytes (s : String) : List UInt8 :=
  s.toUTF8.data.toList

/-- The parsed template set held by the package variable `templates`. It is
read from `tmpl/edit.html` and `tmpl/view.html`, which are not part of the
sources, so it is a parameter: `ExecuteTemplate name p` gives the output
written for page `p` and the error of the execution, if any. -/
structure Template where
  ExecuteTemplate : String → Page → List UInt8 × Option String

/-- Function `renderTemplate`: executes the template `tmpl + ".html"` on the
writer and replies 500 with the error text when the execution fails. -/
def renderTemplate (templates : Template) (w : ResponseWriter) (tmpl : String) (p : Page) :
    ResponseWriter :=
  match templates.ExecuteTemplate (tmpl ++ ".html") p with
  | (out, none) => w ++ [Call.Write out]
  | (out, some err) => http.Error (w ++ [Call.Write out]) err StatusInternalServerError

/-- Handler `viewHandler`. -/
def viewHandler (templates : Template) (fs : FS) (w : ResponseWriter) (r : Request)
    (title : String) : FS × ResponseWriter :=
  match loadPage fs title with
  | Except.error _ => (fs, http.Redirect w r ("/edit/" ++ title) StatusFound)
  | Except.ok p => (fs, renderTemplate templates w "view" p)

/-- Handler `editHandler`. -/
def editHandler (templates : Template) (fs : FS) (w : ResponseWriter) (_r : Request)
    (title : String) : FS × ResponseWriter :=
  match loadPage fs title with
  | Except.error _ => (fs, renderTemplate templates w "edit" { Title := title, Body := [] })
  | Except.ok p => (fs, renderTemplate templates w "edit" p)

/-- Handler `saveHandler`. -/
def saveHandler (fs : FS) (w : ResponseWriter) (r : Request) (title : String) :
    FS × ResponseWriter :=
  let body := r.FormValue "body"
  let p : Page := { Title := title, Body := bytes body }
  match p.save fs with
  | (fs1, some err) => (fs1, http.Error w err StatusInternalServerError)
  | (fs1, none) => (fs1, http.Redirect w r ("/view/" ++ title) StatusFound)

/-! ### The regular expression of `validPath`

Package `regexp` is modelled by the operators the pattern uses and a
backtracking matcher with the leftmost-first preference of Go: alternatives
are tried left to right and `+` takes as many repetitions as it can before
giving some back. -/

/-- Parsed regular expressions (the operators of `regexp/syntax` that occur
in the pattern). -/
inductive Regexp where
  | BeginText
  | EndText
  | Literal (s : List Char)
  | CharClass (ranges : List (Char × Char))
  | Concat (a b : Regexp)
  | Alternate (a b : Regexp)
  | Plus (sub : Regexp)
  | Capture (idx : Nat) (sub : Regexp)

/-- A matching thread: the number of characters consumed so far, the text
still ahead, and the groups captured so far (latest first). -/
structure Thread where
  pos : Nat
  rest : List Char
  cap : List (Nat × List Char)
  deriving DecidableEq

/-- Consuming `n` characters. -/
def Thread.advance (t : Thread) (n : Nat) : Thread :=
  { t with pos := t.pos + n, rest := t.rest.drop n }

/-- Membership of a character in a class given by its ranges. -/
def inClass (ranges : List (Char × Char)) (c : Char) : Bool :=
  ranges.any (fun lh => decide (lh.1 ≤ c) && decide (c ≤ lh.2))

/-- Further repetitions of a loop body `step`, greedy: every way of going
once more round (it has to consume something) comes before stopping here.
The counter bounds the number of rounds; it starts at the length of the text
ahead, and as every round consumes a character it never cuts a round short. -/
def iterate (step : Thread → List Thread) : Nat → Thread → List Thread
  | 0, t => [t]
  | n + 1, t =>
    ((step t).filter (fun u => decide (u.rest.length < t.rest.length))).flatMap (iterate step n)
      ++ [t]

/-- All the ways a regular expression matches at a thread, in order of
preference. -/
def Regexp.run : Regexp → Thread → List Thread
  | Regexp.BeginText, t => if t.pos = 0 then [t] else []
  | Regexp.EndText, t => if t.rest = [] then [t] else []
  | Regexp.Literal s, t => if s.isPrefixOf t.rest then [t.advance s.length] else []
  | Regexp.CharClass ranges, t =>
    match t.rest with
    | [] => []
    | c :: _ => if inClass ranges c then [t.advance 1] else []
  | Regexp.Concat a b, t => (a.run t).flatMap (fun u => b.run u)
  | Regexp.Alternate a b, t => a.run t ++ b.run t
  | Regexp.Plus a, t => (a.run t).flatMap (fun u => iterate (fun v => a.run v) u.rest.length u)
  | Regexp.Capture i a, t =>
    (a.run t).map (fun u => { u with cap := (i, t.rest.take (u.pos - t.pos)) :: u.cap })

/-- Go `re.NumSubexp()`: the number of capture groups. -/
def Regexp.NumSubexp : Regexp → Nat
  | Regexp.Concat a b => max a.NumSubexp b.NumSubexp
  | Regexp.Alternate a b => max a.NumSubexp b.NumSubexp
  | Regexp.Plus a => a.NumSubexp
  | Regexp.Capture i a => max i a.NumSubexp
  | _ => 0

/-- The leftmost match: the preferred match at the earliest start offset that
has one. Group 0 is the whole match. -/
def Regexp.search (re : Regexp) : Nat → List Char → Option Thread
  | pos, [] => ((Regexp.Capture 0 re).run { pos := pos, rest := [], cap := [] }).head?
  | pos, c :: cs =>
    match ((Regexp.Capture 0 re).run { pos := pos, rest := c :: cs, cap := [] }).head? with
    | some u => some u
    | none => re.search (pos + 1) cs

/-- The text of group `i` of a match; a group that did not take part is the
empty string. -/
def Thread.group (t : Thread) (i : Nat) : String :=
  match t.cap.find? (fun kv => kv.1 == i) with
  | some kv => String.mk kv.2
  | none => ""

/-- Go `re.FindStringSubmatch(s)`: the texts of the whole leftmost match and of
its groups, or `nil` (the empty list) when nothing matches. -/
def Regexp.FindStringSubmatch (re : Regexp) (s : String) : List String :=
  match re.search 0 s.data with
  | none => []
  | some t => (List.range (re.NumSubexp + 1)).map t.group

/-- A literal string in a pattern. -/
def str (s : String) : Regexp :=
  Regexp.Literal s.data

/-- The package variable `validPath`, the pattern
`^/(edit|save|view)/([a-zA-Z0-9]+)$`. -/
def validPath : Regexp :=
  Regexp.Concat Regexp.BeginText
   (Regexp.Concat (str "/")
    (Regexp.Concat
      (Regexp.Capture 1
        (Regexp.Alternate (str "edit") (Regexp.Alternate (str "save") (str "view"))))
      (Regexp.Concat (str "/")
        (Regexp.Concat
          (Regexp.Capture 2
            (Regexp.Plus (Regexp.CharClass [('a', 'z'), ('A', 'Z'), ('0', '9')])))
          Regexp.EndText))))

/-- Function `makeHandler`: the returned closure, applied to the file system,
the writer and the request. `m[2]` is in range whenever `m` is not `nil`
(see `FindStringSubmatch_validPath_length`). -/
def makeHandler (fn : FS → ResponseWriter → Request → String → FS × ResponseWriter)
    (fs : FS) (w : ResponseWriter) (r : Request) : FS × ResponseWriter :=
  let m := validPath.FindStringSubmatch r.Path
  match m with
  | [] => (fs, http.NotFound w r)
  | _ :: _ => fn fs w r (m.getD 2 "")

/-! ### Vocabulary of the statements and sample inputs -/

/-- A character of the class `[a-zA-Z0-9]`. -/
def IsAlnum (c : Char) : Prop :=
  ('a' ≤ c ∧ c ≤ 'z') ∨ ('A' ≤ c ∧ c ≤ 'Z') ∨ ('0' ≤ c ∧ c ≤ '9')

instance : DecidablePred IsAlnum := fun c => by unfold IsAlnum; infer_instance

/-- A non-empty string of characters from `[a-zA-Z0-9]`. -/
def ValidTitle (t : String) : Prop :=
  t ≠ "" ∧ ∀ c ∈ t.data, IsAlnum c

/-- The path `p` is `/`, one of `edit`, `save`, `view`, `/`, and then the valid
title `t`, with nothing before or after. -/
def ValidShape (p t : String) : Prop :=
  ∃ verb ∈ ["edit", "save", "view"], p = "/" ++ verb ++ "/" ++ t ∧ ValidTitle t

/-- The file name is `data/` followed by a single path component: a base name
that is not empty, is neither `.` nor `..`, and holds no path separator and no
NUL character. -/
def DirectlyInData (name : String) : Prop :=
  ∃ base, name = "data/" ++ base ∧ base ≠ "" ∧ base ≠ "." ∧ base ≠ ".." ∧
    ∀ c ∈ base.data, c ≠ '/' ∧ c ≠ '\\' ∧ c ≠ '\x00'

/-- A file system without any file, on which every write is accepted. -/
def emptyFS : FS :=
  { files := fun name => Except.error ("open " ++ name ++ ": no such file or directory"),
    writeErr := fun _ => none }

/-- A file system without any file that refuses every write. -/
def readOnlyFS : FS :=
  { files := fun name => Except.error ("open " ++ name ++ ": no such file or directory"),
    writeErr := fun name => some ("open " ++ name ++ ": permission denied") }

/-- A file system whose only file is `data/Test.txt`, holding the five bytes of
`hello`; every write is accepted. -/
def helloFS : FS :=
  { files := fun name =>
      if name = "data/Test.txt" then Except.ok [104, 101, 108, 108, 111]
      else Except.error ("open " ++ name ++ ": no such file or directory"),
    writeErr := fun _ => none }

/-- A template set with the two templates of the program: `view.html` prints the
title, a line break and the body, `edit.html` prints the title, a colon and
the body; executing any other name prints nothing and fails. -/
def sampleTemplates : Template :=
  { ExecuteTemplate := fun name p =>
      if name = "view.html" then (bytes p.Title ++ [10] ++ p.Body, none)
      else if name = "edit.html" then (bytes p.Title ++ [58] ++ p.Body, none)
      else ([], some ("template: no template " ++ name)) }

/-- The request `POST /save/Test` with form field `body=hello`. -/
def saveTest : Request :=
  { Path := "/save/Test", Form := [("body", "hello")] }

/-- A request `GET` of the given path. -/
def get (path : String) : Request :=
  { Path := path, Form := [] }

end webapp


namespace backend

/-! ## Properties of the album service -/

theorem loop_of_first (id : String) (c : Context) (pre : List album) (a : album)
    (post : List album) (hpre : ∀ x ∈ pre, x.ID ≠ id) (ha : a.ID = id) :
    getAlbumByID.loop id c (pre ++ a :: post) = c.IndentedJSON StatusOK (JSONValue.record a) := by
  induction pre with
  | nil => simp [getAlbumByID.loop, ha]
  | cons x xs ih =>
    have hx : x.ID ≠ id := hpre x (List.mem_cons_self x xs)
    have hxs : ∀ y ∈ xs, y.ID ≠ id := fun y hy => hpre y (List.mem_cons_of_mem x hy)
    simp [getAlbumByID.loop, hx, ih hxs]

theorem loop_of_absent (id : String) (c : Context) (L : List album)
    (h : ∀ x ∈ L, x.ID ≠ id) :
    getAlbumByID.loop id c L =
      c.IndentedJSON StatusNotFound (JSONValue.H [("message", "album not found")]) := by
  induction L with
  | nil => rfl
  | cons x xs ih =>
    have hx : x.ID ≠ id := h x (List.mem_cons_self x xs)
    have hxs : ∀ y ∈ xs, y.ID ≠ id := fun y hy => h y (List.mem_cons_of_mem x hy)
    simp [getAlbumByID.loop, hx, ih hxs]

theorem exists_first (id : String) (L : List album) (h : ∃ x ∈ L, x.ID = id) :
    ∃ a, FirstWithID L id a := by
  induction L with
  | nil => obtain ⟨x, hx, _⟩ := h; cases hx
  | cons y ys ih =>
    by_cases hy : y.ID = id
    · exact ⟨y, [], ys, rfl, by simp, hy⟩
    · have h2 : ∃ x ∈ ys, x.ID = id := by
        obtain ⟨x, hx, hxid⟩ := h
        rcases List.mem_cons.mp hx with rfl | hx2
        · exact absurd hxid hy
        · exact ⟨x, hx2, hxid⟩
      obtain ⟨a, pre, post, hL, hpre, ha⟩ := ih h2
      refine ⟨a, y :: pre, post, by simp [hL], ?_, ha⟩
      intro x hx
      rcases List.mem_cons.mp hx with rfl | hx2
      · exact hy
      · exact hpre x hx2

theorem IndentedJSON_inj (c : Context) (code1 code2 : Nat) (o1 o2 : JSONValue)
    (h : c.IndentedJSON code1 o1 = c.IndentedJSON code2 o2) : code1 = code2 ∧ o1 = o2 := by
  have hw := congrArg Context.Writer h
  simp [Context.IndentedJSON] at hw
  exact hw

/-- Claim C1. `getAlbumByID` leaves the album list unchanged; when some record
of the list has the requested id it responds 200 with the first such record
in list order; and it responds 404 with the body `message: album not found`
exactly when no record of the list has that id. -/
theorem getAlbumByID_first_or_404 (L : List album) (c : Context) :
    (getAlbumByID L c).1 = L ∧
    (∀ a, FirstWithID L (c.Param "id") a →
      (getAlbumByID L c).2 = c.IndentedJSON StatusOK (JSONValue.record a)) ∧
    ((∃ x ∈ L, x.ID = c.Param "id") →
      ∃ a, FirstWithID L (c.Param "id") a ∧
        (getAlbumByID L c).2 = c.IndentedJSON 200 (JSONValue.record a)) ∧
    ((getAlbumByID L c).2 =
        c.IndentedJSON 404 (JSONValue.H [("message", "album not found")])
      ↔ ∀ x ∈ L, x.ID ≠ c.Param "id") := by
  have hfirst : ∀ a, FirstWithID L (c.Param "id") a →
      (getAlbumByID L c).2 = c.IndentedJSON StatusOK (JSONValue.record a) := by
    rintro a ⟨pre, post, hL, hpre, ha⟩
    simp only [getAlbumByID, hL]
    exact loop_of_first _ c pre a post hpre ha
  refine ⟨rfl, hfirst, ?_, ?_, ?_⟩
  · intro h
    obtain ⟨a, ha⟩ := exists_first _ L h
    exact ⟨a, ha, hfirst a ha⟩
  · intro h x hx hxid
    obtain ⟨a, ha⟩ := exists_first _ L ⟨x, hx, hxid⟩
    have h2 := (hfirst a ha).symm.trans h
    have h3 := (IndentedJSON_inj c _ _ _ _ h2).1
    simp [StatusOK] at h3
  · intro h
    exact loop_of_absent _ c L h

/-- On the seed list, `GET /albums/2` gives the Jeru record and `GET /albums/99`
gives 404. -/
theorem getAlbumByID_first_or_404_witness :
    (getAlbumByID albums (ctxID "2")).2 =
      (ctxID "2").IndentedJSON 200 (JSONValue.record
        { ID := "2", Title := "Jeru", Artist := "Gerry Mulligan", Price := 17.99 }) ∧
    (getAlbumByID albums (ctxID "99")).2 =
      (ctxID "99").IndentedJSON 404 (JSONValue.H [("message", "album not found")]) :=
  ⟨(getAlbumByID_first_or_404 albums (ctxID "2")).2.1 _
      ⟨[{ ID := "1", Title := "Blue Train", Artist := "John Coltrane", Price := 56.99 }],
        [{ ID := "3", Title := "Sarah Vaughan and Clifford Brown", Artist := "Sarah Vaughan",
            Price := 39.99 }], rfl, by decide, rfl⟩,
    (getAlbumByID_first_or_404 albums (ctxID "99")).2.2.2.mpr (by decide)⟩

theorem postAlbums_ok (decode : String → Except String album) (L : List album) (c : Context)
    (r : album) (h : decode c.Body = Except.ok r) :
    postAlbums decode L c = (L ++ [r], c.IndentedJSON StatusCreated (JSONValue.record r)) := by
  simp [postAlbums, Context.BindJSON, h]

theorem postAlbums_error (decode : String → Except String album) (L : List album) (c : Context)
    (e : String) (h : decode c.Body = Except.error e) :
    postAlbums decode L c =
      (L, { c with Writer := c.Writer ++ [Written.AbortWithError StatusBadRequest e] }) := by
  simp [postAlbums, Context.BindJSON, h]

/-- Claim C5. When the body of the request decodes to the record `r`,
`postAlbums` responds 201 with `r` and leaves the list equal to the old list
with `r` appended at the end; and if no record of the old list has the id of
`r`, a following `getAlbumByID` for that id responds 200 with `r` (and keeps
the list). -/
theorem postAlbums_appends_then_get (decode : String → Except String album) (L : List album)
    (c : Context) (r : album) (h : decode c.Body = Except.ok r) :
    postAlbums decode L c = (L ++ [r], c.IndentedJSON 201 (JSONValue.record r)) ∧
    ((∀ x ∈ L, x.ID ≠ r.ID) → ∀ c2 : Context, c2.Param "id" = r.ID →
      getAlbumByID (postAlbums decode L c).1 c2 =
        (L ++ [r], c2.IndentedJSON 200 (JSONValue.record r))) := by
  refine ⟨postAlbums_ok decode L c r h, ?_⟩
  intro hfresh c2 hid
  rw [postAlbums_ok decode L c r h]
  simp only [getAlbumByID, hid]
  rw [loop_of_first r.ID c2 L r [] hfresh rfl]
  rfl

/-- Posting the sample record onto the seed list gives 201 with that record,
and `GET /albums/4` then returns it. -/
theorem postAlbums_appends_then_get_witness :
    postAlbums sampleDecode albums (ctxBody sampleBody) =
      (albums ++ [sampleAlbum],
        (ctxBody sampleBody).IndentedJSON 201 (JSONValue.record sampleAlbum)) ∧
    getAlbumByID (postAlbums sampleDecode albums (ctxBody sampleBody)).1 (ctxID "4") =
      (albums ++ [sampleAlbum], (ctxID "4").IndentedJSON 200 (JSONValue.record sampleAlbum)) :=
  ⟨(postAlbums_appends_then_get sampleDecode albums (ctxBody sampleBody) sampleAlbum rfl).1,
    (postAlbums_appends_then_get sampleDecode albums (ctxBody sampleBody) sampleAlbum rfl).2
      (by decide) (ctxID "4") rfl⟩

/-- Claim C6. When the body of the request fails to decode, `postAlbums` leaves
the list exactly as it was, and the response is left exactly as the decoding
step `BindJSON` left it: the handler adds nothing, and in particular no
`IndentedJSON` call (status and body) that was not there before. -/
theorem postAlbums_decode_failure (decode : String → Except String album) (L : List album)
    (c : Context) (e : String) (h : decode c.Body = Except.error e) :
    (postAlbums decode L c).1 = L ∧
    (postAlbums decode L c).2 = (c.BindJSON decode).1 ∧
    (postAlbums decode L c).2.Writer = c.Writer ++ [Written.AbortWithError 400 e] ∧
    (∀ code obj, Written.IndentedJSON code obj ∈ (postAlbums decode L c).2.Writer →
      Written.IndentedJSON code obj ∈ c.Writer) := by
  rw [postAlbums_error decode L c e h]
  refine ⟨rfl, ?_, rfl, ?_⟩
  · simp [Context.BindJSON, h]
  · intro code obj hmem
    simpa using hmem

/-- A body that is not JSON leaves the seed list as it is. -/
theorem postAlbums_decode_failure_witness :
    (postAlbums sampleDecode albums (ctxBody "not json")).1 = albums ∧
    (postAlbums sampleDecode albums (ctxBody "not json")).2.Writer =
      [Written.AbortWithError 400 "invalid character"] :=
  ⟨(postAlbums_decode_failure sampleDecode albums (ctxBody "not json") "invalid character"
      rfl).1,
    (postAlbums_decode_failure sampleDecode albums (ctxBody "not json") "invalid character"
      rfl).2.2.1⟩

theorem serve_extends (decode : String → Except String album) (L : List album)
    (req : Request) : (serve decode L req).1 = L ++ posted decode [req] := by
  cases req with
  | GET_albums c => simp [serve, getAlbums, posted]
  | GET_albums_id c => simp [serve, getAlbumByID, posted]
  | GET_root c => simp [serve, welcome, posted]
  | POST_albums c =>
    cases h : decode c.Body with
    | ok a => simp [serve, posted, h, postAlbums_ok decode L c a h]
    | error e => simp [serve, posted, h, postAlbums_error decode L c e h]

theorem posted_cons (decode : String → Except String album) (req : Request)
    (reqs : List Request) :
    posted decode (req :: reqs) = posted decode [req] ++ posted decode reqs := by
  cases req with
  | GET_albums c => simp [posted]
  | GET_albums_id c => simp [posted]
  | GET_root c => simp [posted]
  | POST_albums c =>
    cases h : decode c.Body with
    | ok a => simp [posted, h]
    | error e => simp [posted, h]

theorem serveAll_eq (decode : String → Except String album) (reqs : List Request) :
    ∀ L : List album, serveAll decode L reqs = L ++ posted decode reqs := by
  induction reqs with
  | nil => intro L; simp [serveAll, posted]
  | cons req reqs ih =>
    intro L
    rw [serveAll, ih, serve_extends, List.append_assoc, ← posted_cons]

/-- Claim C7. From the initial state, after any sequence of requests (to
`getAlbums`, `getAlbumByID`, `postAlbums` and the welcome route) the list is
the three seed records, ids 1, 2, 3 in that order, followed by the records of
the posts that decoded, in request order, and `getAlbums` responds 200 with
exactly that list and keeps it; every single request keeps the old list as a
leading part of the new one; on a fresh process `getAlbums` responds with the
three seed records. -/
theorem getAlbums_seed_then_posted (decode : String → Except String album)
    (reqs : List Request) (c : Context) :
    serveAll decode albums reqs = albums ++ posted decode reqs ∧
    getAlbums (serveAll decode albums reqs) c =
      (albums ++ posted decode reqs,
        c.IndentedJSON 200 (JSONValue.array (albums ++ posted decode reqs))) ∧
    albums.map album.ID = ["1", "2", "3"] ∧
    (∀ (L : List album) (req : Request), ∃ tail, (serve decode L req).1 = L ++ tail) ∧
    getAlbums (serveAll decode albums []) c =
      (albums, c.IndentedJSON 200 (JSONValue.array
        [ { ID := "1", Title := "Blue Train", Artist := "John Coltrane", Price := 56.99 },
          { ID := "2", Title := "Jeru", Artist := "Gerry Mulligan", Price := 17.99 },
          { ID := "3", Title := "Sarah Vaughan and Clifford Brown", Artist := "Sarah Vaughan",
            Price := 39.99 } ])) := by
  refine ⟨serveAll_eq decode reqs albums, ?_, rfl, ?_, rfl⟩
  · rw [serveAll_eq decode reqs albums]
    rfl
  · intro L req
    exact ⟨_, serve_extends decode L req⟩

end backend

namespace webapp

/-! ## Properties of the wiki -/

theorem advance_zero (t : Thread) : t.advance 0 = t := by
  cases t; simp [Thread.advance]

theorem iterate_class_end (R : List (Char × Char)) (G : Thread → List Thread)
    (hG : ∀ u : Thread, u.rest ≠ [] → G u = []) :
    ∀ (n : Nat) (t : Thread), t.rest.length ≤ n →
      (iterate (fun v => (Regexp.CharClass R).run v) n t).flatMap G =
        if t.rest.all (inClass R) then G (t.advance t.rest.length) else [] := by
  intro n
  induction n with
  | zero =>
    intro t ht
    have h0 : t.rest = [] := List.length_eq_zero.mp (Nat.le_zero.mp ht)
    simp [iterate, h0, advance_zero]
  | succ n ih =>
    intro t ht
    obtain ⟨pos, rest, cap⟩ := t
    cases rest with
    | nil => simp [iterate, Regexp.run, Thread.advance]
    | cons c r =>
      have hGt : G { pos := pos, rest := c :: r, cap := cap } = [] := hG _ (by simp)
      by_cases hc : inClass R c = true
      · have hlen : r.length ≤ n := by simpa using ht
        have := ih { pos := pos + 1, rest := r, cap := cap } hlen
        simp [iterate, Regexp.run, Thread.advance, hc, hGt] at this ⊢
        rw [this]
        simp [Nat.add_assoc, Nat.add_comm 1]
      · simp [iterate, Regexp.run, Thread.advance, hc, hGt]


theorem inClass_alnum (c : Char) :
    inClass [('a', 'z'), ('A', 'Z'), ('0', '9')] c = true ↔ IsAlnum c := by
  simp [inClass, IsAlnum]

theorem all_alnum (l : List Char) :
    l.all (inClass [('a', 'z'), ('A', 'Z'), ('0', '9')]) = true ↔ ∀ c ∈ l, IsAlnum c := by
  simp [List.all_eq_true, inClass_alnum]

theorem run_concat (a b : Regexp) (t : Thread) :
    (Regexp.Concat a b).run t = (a.run t).flatMap (fun u => b.run u) := by
  simp [Regexp.run]

theorem run_alternate (a b : Regexp) (t : Thread) :
    (Regexp.Alternate a b).run t = a.run t ++ b.run t := by
  simp [Regexp.run]

theorem run_plus (a : Regexp) (t : Thread) :
    (Regexp.Plus a).run t =
      (a.run t).flatMap (fun u => iterate (fun v => a.run v) u.rest.length u) := by
  simp [Regexp.run]

theorem run_capture (i : Nat) (a : Regexp) (t : Thread) :
    (Regexp.Capture i a).run t =
      (a.run t).map (fun u => { u with cap := (i, t.rest.take (u.pos - t.pos)) :: u.cap }) := by
  simp [Regexp.run]

theorem run_literal (s : List Char) (t : Thread) :
    (Regexp.Literal s).run t = if s.isPrefixOf t.rest then [t.advance s.length] else [] := by
  simp [Regexp.run]

theorem run_endText (t : Thread) :
    Regexp.EndText.run t = if t.rest = [] then [t] else [] := by
  simp [Regexp.run]

theorem run_beginText (t : Thread) :
    Regexp.BeginText.run t = if t.pos = 0 then [t] else [] := by
  simp [Regexp.run]

theorem run_title (R : List (Char × Char)) (t : Thread) :
    (Regexp.Concat (Regexp.Capture 2 (Regexp.Plus (Regexp.CharClass R))) Regexp.EndText).run t =
      if t.rest ≠ [] ∧ t.rest.all (inClass R) = true then
        [{ pos := t.pos + t.rest.length, rest := [], cap := (2, t.rest) :: t.cap }]
      else [] := by
  obtain ⟨pos, rest, cap⟩ := t
  cases rest with
  | nil => simp [Regexp.run]
  | cons c r =>
    by_cases hc : inClass R c = true
    · have key := iterate_class_end R
        (fun u => Regexp.EndText.run
          { u with cap := (2, (c :: r).take (u.pos - pos)) :: u.cap })
        (by intro u hu; simp [Regexp.run, hu])
        r.length { pos := pos + 1, rest := r, cap := cap } (Nat.le_refl _)
      have h1 : (Regexp.CharClass R).run { pos := pos, rest := c :: r, cap := cap } =
          [{ pos := pos + 1, rest := r, cap := cap }] := by
        simp [Regexp.run, hc, Thread.advance]
      rw [run_concat, run_capture, run_plus, h1]
      simp only [List.flatMap_cons, List.flatMap_nil, List.append_nil, List.flatMap_map]
      rw [key]
      by_cases hr : r.all (inClass R) = true
      · have e1 : pos + 1 + r.length - pos = r.length + 1 := by omega
        simp [hr, hc, run_endText, Thread.advance, e1, Nat.add_assoc, Nat.add_comm 1]
      · simp [hr, hc]
    · simp [Regexp.run, hc]


theorem eq_append_of_isPrefixOf (s : List Char) :
    ∀ l : List Char, s.isPrefixOf l = true → l = s ++ l.drop s.length := by
  induction s with
  | nil => intro l _; simp
  | cons a s ih =>
    intro l h
    cases l with
    | nil => simp [List.isPrefixOf] at h
    | cons b l =>
      simp only [List.isPrefixOf, Bool.and_eq_true, beq_iff_eq] at h
      obtain ⟨hab, hsl⟩ := h
      subst hab
      have := ih l hsl
      simp only [List.length_cons, List.drop_succ_cons, List.cons_append, List.cons.injEq,
        true_and]
      exact this

theorem rest_of_mem_run_literal (s : List Char) (t u : Thread)
    (h : u ∈ (Regexp.Literal s).run t) : t.rest = s ++ u.rest := by
  rw [run_literal] at h
  split at h
  case isFalse => simp at h
  case isTrue hp =>
    simp only [List.mem_singleton] at h
    subst h
    simpa [Thread.advance] using eq_append_of_isPrefixOf s t.rest hp

theorem validPath_run_eq (t : Thread) :
    validPath.run t =
      (Regexp.BeginText.run t).flatMap (fun u1 =>
        ((Regexp.Literal ['/']).run u1).flatMap (fun u2 =>
          ((Regexp.Capture 1 (Regexp.Alternate (Regexp.Literal ['e', 'd', 'i', 't'])
              (Regexp.Alternate (Regexp.Literal ['s', 'a', 'v', 'e'])
                (Regexp.Literal ['v', 'i', 'e', 'w'])))).run u2).flatMap (fun u3 =>
            ((Regexp.Literal ['/']).run u3).flatMap (fun u4 =>
              if u4.rest ≠ [] ∧ u4.rest.all (inClass [('a', 'z'), ('A', 'Z'), ('0', '9')]) = true
              then [{ pos := u4.pos + u4.rest.length, rest := [], cap := (2, u4.rest) :: u4.cap }]
              else [])))) := by
  have hT := run_title [('a', 'z'), ('A', 'Z'), ('0', '9')]
  simp only [validPath, str]
  generalize Regexp.Concat (Regexp.Capture 2
    (Regexp.Plus (Regexp.CharClass [('a', 'z'), ('A', 'Z'), ('0', '9')]))) Regexp.EndText = T
    at hT ⊢
  simp only [run_concat, hT]

theorem run_validPath_of_shape (verb : String) (hv : verb ∈ ["edit", "save", "view"])
    (tl : List Char) (h1 : tl ≠ []) (h2 : ∀ c ∈ tl, IsAlnum c) :
    validPath.run { pos := 0, rest := '/' :: (verb.data ++ '/' :: tl), cap := [] } =
      [{ pos := 6 + tl.length, rest := [], cap := [(2, tl), (1, verb.data)] }] := by
  have h3 : ∀ x ∈ tl, inClass [('a', 'z'), ('A', 'Z'), ('0', '9')] x = true :=
    fun x hx => (inClass_alnum x).mpr (h2 x hx)
  simp only [List.mem_cons, List.mem_singleton, List.not_mem_nil, or_false] at hv
  rcases hv with rfl | rfl | rfl <;>
    (simp [validPath_run_eq, run_beginText, run_literal, run_capture, run_alternate,
      Thread.advance, List.isPrefixOf, h1]
     exact h3)

theorem shape_of_mem_run_validPath (cs : List Char) (u : Thread)
    (h : u ∈ validPath.run { pos := 0, rest := cs, cap := [] }) :
    ∃ verb ∈ ["edit", "save", "view"], ∃ tl, tl ≠ [] ∧ (∀ c ∈ tl, IsAlnum c) ∧
      cs = '/' :: (verb.data ++ '/' :: tl) := by
  simp only [validPath_run_eq, run_beginText, run_capture, run_alternate,
      List.mem_flatMap, List.mem_map, List.mem_append] at h
  obtain ⟨u1, hu1, u2, hu2, u3, ⟨v, hv, rfl⟩, u4, hu4, hu⟩ := h
  simp only [if_true, List.mem_singleton] at hu1
  subst hu1
  have e1 := rest_of_mem_run_literal _ _ _ hu2
  have e3 := rest_of_mem_run_literal _ _ _ hu4
  simp only at e1 e3
  split at hu
  case isFalse => simp at hu
  case isTrue hp3 =>
    have halnum := (all_alnum u4.rest).mp hp3.2
    rcases hv with hv | hv | hv
    · have e2 := rest_of_mem_run_literal _ _ _ hv
      exact ⟨"edit", by simp, u4.rest, hp3.1, halnum, by rw [e1, e2, e3]; rfl⟩
    · have e2 := rest_of_mem_run_literal _ _ _ hv
      exact ⟨"save", by simp, u4.rest, hp3.1, halnum, by rw [e1, e2, e3]; rfl⟩
    · have e2 := rest_of_mem_run_literal _ _ _ hv
      exact ⟨"view", by simp, u4.rest, hp3.1, halnum, by rw [e1, e2, e3]; rfl⟩

theorem search_validPath_pos (cs : List Char) :
    ∀ pos : Nat, 0 < pos → validPath.search pos cs = none := by
  induction cs with
  | nil =>
    intro pos hpos
    have hne : pos ≠ 0 := Nat.pos_iff_ne_zero.mp hpos
    simp [Regexp.search, run_capture, validPath_run_eq, run_beginText, hne]
  | cons c cs ih =>
    intro pos hpos
    have hne : pos ≠ 0 := Nat.pos_iff_ne_zero.mp hpos
    simp [Regexp.search, run_capture, validPath_run_eq, run_beginText, hne, ih (pos + 1)]

theorem search_validPath_zero (cs : List Char) :
    validPath.search 0 cs =
      ((Regexp.Capture 0 validPath).run { pos := 0, rest := cs, cap := [] }).head? := by
  cases cs with
  | nil => simp [Regexp.search]
  | cons c cs =>
    rw [Regexp.search, search_validPath_pos cs 1 (by decide)]
    cases ((Regexp.Capture 0 validPath).run { pos := 0, rest := c :: cs, cap := [] }).head? <;> rfl

theorem data_ne_nil_of_ne_empty (t : String) (h : t ≠ "") : t.data ≠ [] := by
  intro hd
  exact h (String.ext hd)

theorem FindStringSubmatch_of_shape (verb : String) (hv : verb ∈ ["edit", "save", "view"])
    (t : String) (ht : ValidTitle t) :
    validPath.FindStringSubmatch ("/" ++ verb ++ "/" ++ t) = ["/" ++ verb ++ "/" ++ t, verb, t] := by
  have hd : ("/" ++ verb ++ "/" ++ t).data = '/' :: (verb.data ++ '/' :: t.data) := by
    simp [String.data_append]
  have hrun := run_validPath_of_shape verb hv t.data (data_ne_nil_of_ne_empty t ht.1) ht.2
  have hlen : verb.data.length = 4 := by
    simp only [List.mem_cons, List.mem_singleton, List.not_mem_nil, or_false] at hv
    rcases hv with rfl | rfl | rfl <;> rfl
  have htake : List.take (6 + t.data.length) ('/' :: (verb.data ++ '/' :: t.data)) =
      '/' :: (verb.data ++ '/' :: t.data) := by
    apply List.take_of_length_le
    simp [hlen]
    omega
  have hsearch : validPath.search 0 ("/" ++ verb ++ "/" ++ t).data =
      some { pos := 6 + t.data.length, rest := [],
             cap := [(0, '/' :: (verb.data ++ '/' :: t.data)), (2, t.data), (1, verb.data)] } := by
    rw [search_validPath_zero, hd, run_capture, hrun]
    simp only [List.map_cons, List.map_nil, List.head?_cons, Nat.sub_zero, htake]
  unfold Regexp.FindStringSubmatch
  rw [hsearch]
  have hn : validPath.NumSubexp = 2 := by decide
  rw [hn]
  have hr : List.range 3 = [0, 1, 2] := by decide
  simp only [hr, List.map, Thread.group, List.find?]
  simp
  exact String.ext hd.symm

theorem shape_of_FindStringSubmatch (p : String) (h : validPath.FindStringSubmatch p ≠ []) :
    ∃ t, ValidShape p t := by
  unfold Regexp.FindStringSubmatch at h
  rw [search_validPath_zero] at h
  cases hh : ((Regexp.Capture 0 validPath).run { pos := 0, rest := p.data, cap := [] }).head? with
  | none => rw [hh] at h; exact absurd rfl h
  | some u =>
    have hmem := List.mem_of_mem_head? (Option.mem_def.mpr hh)
    rw [run_capture, List.mem_map] at hmem
    obtain ⟨v, hv, _⟩ := hmem
    obtain ⟨verb, hverb, tl, h1, h2, hcs⟩ := shape_of_mem_run_validPath p.data v hv
    refine ⟨String.mk tl, verb, hverb, ?_, ?_, h2⟩
    · apply String.ext
      simp [String.data_append, hcs]
    · intro he
      exact h1 (congrArg String.data he)

theorem FindStringSubmatch_validPath_length (p : String) :
    validPath.FindStringSubmatch p = [] ∨ (validPath.FindStringSubmatch p).length = 3 := by
  unfold Regexp.FindStringSubmatch
  cases validPath.search 0 p.data with
  | none => exact Or.inl rfl
  | some u => right; simp; decide

theorem makeHandler_of_shape (fn : FS → ResponseWriter → Request → String → FS × ResponseWriter)
    (fs : FS) (w : ResponseWriter) (r : Request) (t : String) (h : ValidShape r.Path t) :
    makeHandler fn fs w r = fn fs w r t := by
  obtain ⟨verb, hverb, hp, ht⟩ := h
  unfold makeHandler
  rw [hp, FindStringSubmatch_of_shape verb hverb t ht]
  rfl

theorem makeHandler_of_not_shape
    (fn : FS → ResponseWriter → Request → String → FS × ResponseWriter)
    (fs : FS) (w : ResponseWriter) (r : Request) (h : ¬ ∃ t, ValidShape r.Path t) :
    makeHandler fn fs w r = (fs, http.NotFound w r) := by
  have hm : validPath.FindStringSubmatch r.Path = [] := by
    by_contra hne
    exact h (shape_of_FindStringSubmatch r.Path hne)
  unfold makeHandler
  rw [hm]

theorem alnum_not_special (c : Char) (h : IsAlnum c) :
    c ≠ '/' ∧ c ≠ '\\' ∧ c ≠ '.' ∧ c ≠ '\x00' := by
  refine ⟨?_, ?_, ?_, ?_⟩ <;> (rintro rfl; exact absurd h (by decide))

theorem filename_inj (x y : String) (h : "data/" ++ x ++ ".txt" = "data/" ++ y ++ ".txt") :
    x = y := by
  have hd := congrArg String.data h
  simp only [String.data_append, List.append_assoc] at hd
  exact String.ext (List.append_cancel_right (List.append_cancel_left hd))

theorem filename_of_valid (t : String) (ht : ValidTitle t) :
    ("data/" ++ t ++ ".txt").data.count '/' = 1 ∧ DirectlyInData ("data/" ++ t ++ ".txt") := by
  have hns : ∀ c ∈ t.data, c ≠ '/' ∧ c ≠ '\\' ∧ c ≠ '.' ∧ c ≠ '\x00' :=
    fun c hc => alnum_not_special c (ht.2 c hc)
  constructor
  · have h0 : List.count '/' t.data = 0 :=
      List.count_eq_zero.mpr (fun hmem => (hns '/' hmem).1 rfl)
    have h1 : List.count '/' "data/".data = 1 := by decide
    have h2 : List.count '/' ".txt".data = 0 := by decide
    simp only [String.data_append, List.count_append, h0, h1, h2]
  · refine ⟨t ++ ".txt", ?_, ?_, ?_, ?_, ?_⟩
    · apply String.ext
      simp [String.data_append]
    · intro he
      have := congrArg (fun s : String => s.data.length) he
      simp [String.data_append] at this
    · intro he
      have := congrArg (fun s : String => s.data.length) he
      simp [String.data_append] at this
    · intro he
      have := congrArg (fun s : String => s.data.length) he
      simp [String.data_append] at this
    · intro c hc
      simp only [String.data_append, List.mem_append] at hc
      rcases hc with hc | hc
      · exact ⟨(hns c hc).1, (hns c hc).2.1, (hns c hc).2.2.2⟩
      · have hc2 : c ∈ ['.', 't', 'x', 't'] := hc
        simp only [List.mem_cons, List.mem_singleton, List.not_mem_nil, or_false] at hc2
        rcases hc2 with rfl | rfl | rfl | rfl <;> decide

theorem no_title_for_has_space : ¬ ∃ t, ValidShape "/edit/has space" t := by
  rintro ⟨t, verb, hverb, hp, _, halnum⟩
  have hd := congrArg String.data hp
  simp only [String.data_append] at hd
  simp only [List.mem_cons, List.mem_singleton, List.not_mem_nil, or_false] at hverb
  rcases hverb with rfl | rfl | rfl
  · simp at hd
    have hmem : ' ' ∈ t.data := by rw [← hd]; decide
    exact absurd (halnum ' ' hmem) (by decide)
  · simp at hd
  · simp at hd

/-- Claim C2. The handler returned by `makeHandler fn` calls `fn` exactly when
the request path is `/`, one of `edit`, `save`, `view`, `/` and a non-empty
title `t` over `[a-zA-Z0-9]`, with nothing before or after, and then passes
exactly that `t`; for every other path it replies 404 and leaves the file
system alone whatever `fn` is, so `fn` is not called and no file is read or
written. -/
theorem makeHandler_calls_fn_iff_shape
    (fn : FS → ResponseWriter → Request → String → FS × ResponseWriter)
    (fs : FS) (w : ResponseWriter) (r : Request) :
    (∀ t, ValidShape r.Path t → makeHandler fn fs w r = fn fs w r t) ∧
    ((¬ ∃ t, ValidShape r.Path t) →
      makeHandler fn fs w r = (fs, w ++ [Call.Error "404 page not found" 404]) ∧
      ∀ fn2, makeHandler fn2 fs w r = makeHandler fn fs w r) := by
  refine ⟨fun t ht => makeHandler_of_shape fn fs w r t ht, fun h => ⟨?_, fun fn2 => ?_⟩⟩
  · exact makeHandler_of_not_shape fn fs w r h
  · rw [makeHandler_of_not_shape fn fs w r h, makeHandler_of_not_shape fn2 fs w r h]

/-- The path `/save/Test` reaches the handler with title `Test`; the path
`/edit/has space` is answered 404 without the file system being touched. -/
theorem makeHandler_calls_fn_iff_shape_witness :
    makeHandler saveHandler emptyFS [] saveTest = saveHandler emptyFS [] saveTest "Test" ∧
    makeHandler saveHandler emptyFS [] (get "/edit/has space") =
      (emptyFS, [Call.Error "404 page not found" 404]) :=
  ⟨(makeHandler_calls_fn_iff_shape saveHandler emptyFS [] saveTest).1 "Test"
      ⟨"save", by decide, rfl, by decide, by decide⟩,
    ((makeHandler_calls_fn_iff_shape saveHandler emptyFS [] (get "/edit/has space")).2
      no_title_for_has_space).1⟩

/-- Further paths of the wrong shape, and two of the right shape, run through
the pattern. -/
theorem validPath_examples :
    validPath.FindStringSubmatch "/view/" = [] ∧
    validPath.FindStringSubmatch "/view/a/b" = [] ∧
    validPath.FindStringSubmatch "/view/a.b" = [] ∧
    validPath.FindStringSubmatch "/edit/has space" = [] ∧
    validPath.FindStringSubmatch "/view/ab\n" = [] ∧
    validPath.FindStringSubmatch "x/view/ab" = [] ∧
    validPath.FindStringSubmatch "/view/Test" = ["/view/Test", "view", "Test"] ∧
    validPath.FindStringSubmatch "/edit/a1B2" = ["/edit/a1B2", "edit", "a1B2"] := by
  decide

theorem loadPage_after_save (fs : FS) (t : String) (b : List UInt8)
    (h : (Page.save { Title := t, Body := b } fs).2 = none) :
    loadPage (Page.save { Title := t, Body := b } fs).1 t =
      Except.ok { Title := t, Body := b } := by
  unfold Page.save os.WriteFile at h ⊢
  cases hw : fs.writeErr ("data/" ++ t ++ ".txt") with
  | some e => simp [hw] at h
  | none => simp [hw, loadPage, os.ReadFile]

/-- Claim C3. When the write of `save` succeeds, `save` followed by `loadPage`
of the same title succeeds and returns the page with that title and with a
body equal, byte for byte, to the one saved. This holds for every title, in
particular for every non-empty title over `[a-zA-Z0-9]`. -/
theorem save_then_loadPage (fs : FS) (t : String) (b : List UInt8)
    (h : (Page.save { Title := t, Body := b } fs).2 = none) :
    loadPage (Page.save { Title := t, Body := b } fs).1 t =
      Except.ok { Title := t, Body := b } ∧
    os.ReadFile (Page.save { Title := t, Body := b } fs).1 ("data/" ++ t ++ ".txt") =
      Except.ok b := by
  have hload := loadPage_after_save fs t b h
  refine ⟨hload, ?_⟩
  unfold loadPage at hload
  cases hr : os.ReadFile (Page.save { Title := t, Body := b } fs).1 ("data/" ++ t ++ ".txt") with
  | error e => simp [hr] at hload
  | ok body => simpa [hr] using hload

/-- Saving `Test` with body `hello` on an empty file system and loading it. -/
theorem save_then_loadPage_witness :
    (Page.save { Title := "Test", Body := bytes "hello" } emptyFS).2 = none ∧
    loadPage (Page.save { Title := "Test", Body := bytes "hello" } emptyFS).1 "Test" =
      Except.ok { Title := "Test", Body := bytes "hello" } :=
  ⟨rfl, (save_then_loadPage emptyFS "Test" (bytes "hello") rfl).1⟩

/-- Claim C4. For every request, either `makeHandler` replies 404 without
calling the page handler, or it calls the page handler (view, edit or save)
with a title `t` that is non-empty and holds only characters of
`[a-zA-Z0-9]`, so none of `/`, backslash, `.` and NUL; then the file name that
`save` writes and `loadPage` reads is exactly `data/` + `t` + `.txt`, it has a
single path separator, and it names a file directly inside the data
directory. -/
theorem makeHandler_title_names_file_in_data (r : Request) :
    (∀ fn fs w, makeHandler fn fs w r = (fs, http.NotFound w r)) ∨
    ∃ t, (∀ fn fs w, makeHandler fn fs w r = fn fs w r t) ∧
      ValidTitle t ∧
      (∀ c ∈ t.data, c ≠ '/' ∧ c ≠ '\\' ∧ c ≠ '.' ∧ c ≠ '\x00') ∧
      (∀ b fs, Page.save { Title := t, Body := b } fs =
        os.WriteFile fs ("data/" ++ t ++ ".txt") b 0o600) ∧
      (∀ fs, loadPage fs t =
        (os.ReadFile fs ("data/" ++ t ++ ".txt")).map (fun body => { Title := t, Body := body })) ∧
      ("data/" ++ t ++ ".txt").data.count '/' = 1 ∧
      DirectlyInData ("data/" ++ t ++ ".txt") := by
  by_cases h : ∃ t, ValidShape r.Path t
  · obtain ⟨t, ht⟩ := h
    have hvalid : ValidTitle t := by
      obtain ⟨_, _, _, hv⟩ := ht
      exact hv
    refine Or.inr ⟨t, fun fn fs w => makeHandler_of_shape fn fs w r t ht, hvalid,
      fun c hc => alnum_not_special c (hvalid.2 c hc), fun b fs => rfl, ?_,
      (filename_of_valid t hvalid).1, (filename_of_valid t hvalid).2⟩
    intro fs
    simp only [loadPage]
    cases os.ReadFile fs ("data/" ++ t ++ ".txt") <;> rfl
  · exact Or.inl (fun fn fs w => makeHandler_of_not_shape fn fs w r h)

theorem renderTemplate_eq (templates : Template) (w : ResponseWriter) (tmpl : String)
    (p : Page) :
    renderTemplate templates w tmpl p =
      match templates.ExecuteTemplate (tmpl ++ ".html") p with
      | (out, none) => w ++ [Call.Write out]
      | (out, some err) => w ++ [Call.Write out, Call.Error err 500] := by
  unfold renderTemplate
  rcases templates.ExecuteTemplate (tmpl ++ ".html") p with ⟨out, _ | err⟩
  · rfl
  · simp [http.Error, StatusInternalServerError]

theorem viewHandler_of_file (templates : Template) (fs : FS) (w : ResponseWriter)
    (r : Request) (t : String) (body : List UInt8)
    (h : fs.files ("data/" ++ t ++ ".txt") = Except.ok body) :
    loadPage fs t = Except.ok { Title := t, Body := body } ∧
    viewHandler templates fs w r t =
      (fs, match templates.ExecuteTemplate "view.html" { Title := t, Body := body } with
        | (out, none) => w ++ [Call.Write out]
        | (out, some err) => w ++ [Call.Write out, Call.Error err 500]) := by
  have hload : loadPage fs t = Except.ok { Title := t, Body := body } := by
    simp [loadPage, os.ReadFile, h]
  refine ⟨hload, ?_⟩
  simp only [viewHandler, hload, renderTemplate_eq]
  rfl

theorem viewHandler_of_no_file (templates : Template) (fs : FS) (w : ResponseWriter)
    (r : Request) (t : String) (e : String)
    (h : fs.files ("data/" ++ t ++ ".txt") = Except.error e) :
    loadPage fs t = Except.error e ∧
    viewHandler templates fs w r t = (fs, w ++ [Call.Redirect ("/edit/" ++ t) 302]) := by
  have hload : loadPage fs t = Except.error e := by
    simp [loadPage, os.ReadFile, h]
  refine ⟨hload, ?_⟩
  simp [viewHandler, hload, http.Redirect, StatusFound]

/-- Claim C8. `viewHandler` never changes the file system. Whenever `loadPage`
fails, whatever the error, and so whenever the read of `data/` + title +
`.txt` reports any error (a missing file or any other), the reply is exactly
one 302 redirect to `/edit/` + title. Whenever the file can be read,
`loadPage` succeeds with the requested title and the contents of the file as
body, and the handler executes the template `view.html` on exactly that page:
the reply is the output of that execution, followed by a 500 reply with the
error text only if the execution failed. -/
theorem viewHandler_redirects_or_renders (templates : Template) (fs : FS)
    (w : ResponseWriter) (r : Request) (t : String) :
    (viewHandler templates fs w r t).1 = fs ∧
    (∀ e, loadPage fs t = Except.error e →
      (viewHandler templates fs w r t).2 = w ++ [Call.Redirect ("/edit/" ++ t) 302]) ∧
    (∀ e, fs.files ("data/" ++ t ++ ".txt") = Except.error e →
      loadPage fs t = Except.error e ∧
      (viewHandler templates fs w r t).2 = w ++ [Call.Redirect ("/edit/" ++ t) 302]) ∧
    (∀ p, loadPage fs t = Except.ok p →
      p.Title = t ∧ fs.files ("data/" ++ t ++ ".txt") = Except.ok p.Body ∧
      (viewHandler templates fs w r t).2 =
        match templates.ExecuteTemplate "view.html" p with
        | (out, none) => w ++ [Call.Write out]
        | (out, some err) => w ++ [Call.Write out, Call.Error err 500]) ∧
    (∀ body, fs.files ("data/" ++ t ++ ".txt") = Except.ok body →
      loadPage fs t = Except.ok { Title := t, Body := body } ∧
      (∀ out, templates.ExecuteTemplate "view.html" { Title := t, Body := body } = (out, none) →
        (viewHandler templates fs w r t).2 = w ++ [Call.Write out]) ∧
      (∀ out err,
        templates.ExecuteTemplate "view.html" { Title := t, Body := body } = (out, some err) →
        (viewHandler templates fs w r t).2 = w ++ [Call.Write out, Call.Error err 500])) := by
  have hfs : (viewHandler templates fs w r t).1 = fs := by
    unfold viewHandler
    cases loadPage fs t <;> rfl
  refine ⟨hfs, ?_, ?_, ?_, ?_⟩
  · intro e he
    simp [viewHandler, he, http.Redirect, StatusFound]
  · intro e he
    have h := viewHandler_of_no_file templates fs w r t e he
    exact ⟨h.1, by rw [h.2]⟩
  · intro p hp
    cases hr : fs.files ("data/" ++ t ++ ".txt") with
    | error e =>
      rw [(viewHandler_of_no_file templates fs w r t e hr).1] at hp
      cases hp
    | ok body =>
      have h := viewHandler_of_file templates fs w r t body hr
      rw [h.1] at hp
      cases hp
      exact ⟨rfl, rfl, by rw [h.2]⟩
  · intro body hr
    have h := viewHandler_of_file templates fs w r t body hr
    refine ⟨h.1, ?_, ?_⟩
    · intro out hout
      rw [h.2, hout]
    · intro out err hout
      rw [h.2, hout]

/-- With no file saved, viewing `NoSuchPage` replies with the single redirect to
`/edit/NoSuchPage`; with `data/Test.txt` holding `hello`, viewing `Test`
replies with the output of `view.html`: the bytes of `Test`, a line break and
the bytes of `hello`. -/
theorem viewHandler_redirects_or_renders_witness :
    (viewHandler sampleTemplates emptyFS [] (get "/view/NoSuchPage") "NoSuchPage").2 =
      [Call.Redirect "/edit/NoSuchPage" 302] ∧
    (viewHandler sampleTemplates helloFS [] (get "/view/Test") "Test").2 =
      [Call.Write [84, 101, 115, 116, 10, 104, 101, 108, 108, 111]] :=
  ⟨(viewHandler_redirects_or_renders sampleTemplates emptyFS [] (get "/view/NoSuchPage")
      "NoSuchPage").2.1 "open data/NoSuchPage.txt: no such file or directory" rfl,
    ((viewHandler_redirects_or_renders sampleTemplates helloFS [] (get "/view/Test")
      "Test").2.2.2.2 [104, 101, 108, 108, 111] rfl).2.1
      [84, 101, 115, 116, 10, 104, 101, 108, 108, 111] rfl⟩

/-- Claim C9. `saveHandler` writes the UTF-8 bytes of the form field `body` to
the file `data/` + title + `.txt`. If the write fails, the file system is as
the failed write left it and the reply is exactly one 500 reply with the text
of the error, so no redirect. If the write succeeds, the reply is exactly one
302 redirect to `/view/` + title, the file of the title then holds exactly
those bytes while every other file name reads as before, and `viewHandler`
for the title then executes the template `view.html` on the page with that
title and exactly that body and replies with its output (followed by a 500
reply only if the execution failed). -/
theorem saveHandler_writes_then_redirects (templates : Template) (fs : FS)
    (w : ResponseWriter) (r : Request) (t : String) :
    (saveHandler fs w r t).1 =
      (os.WriteFile fs ("data/" ++ t ++ ".txt") (r.FormValue "body").toUTF8.data.toList
        0o600).1 ∧
    (∀ e, fs.writeErr ("data/" ++ t ++ ".txt") = some e →
      saveHandler fs w r t = (fs, w ++ [Call.Error e 500]) ∧
      ∀ url code, Call.Redirect url code ∈ (saveHandler fs w r t).2 →
        Call.Redirect url code ∈ w) ∧
    (fs.writeErr ("data/" ++ t ++ ".txt") = none →
      (saveHandler fs w r t).2 = w ++ [Call.Redirect ("/view/" ++ t) 302] ∧
      (saveHandler fs w r t).1.files ("data/" ++ t ++ ".txt") =
        Except.ok (r.FormValue "body").toUTF8.data.toList ∧
      (∀ name, name ≠ "data/" ++ t ++ ".txt" →
        (saveHandler fs w r t).1.files name = fs.files name) ∧
      ∀ w2 r2, viewHandler templates (saveHandler fs w r t).1 w2 r2 t =
        ((saveHandler fs w r t).1,
          match templates.ExecuteTemplate "view.html"
              { Title := t, Body := (r.FormValue "body").toUTF8.data.toList } with
          | (out, none) => w2 ++ [Call.Write out]
          | (out, some err) => w2 ++ [Call.Write out, Call.Error err 500])) := by
  have h1 : (saveHandler fs w r t).1 =
      (os.WriteFile fs ("data/" ++ t ++ ".txt") (r.FormValue "body").toUTF8.data.toList
        0o600).1 := by
    simp only [saveHandler, Page.save, bytes]
    rcases os.WriteFile fs ("data/" ++ t ++ ".txt") (r.FormValue "body").toUTF8.data.toList
      0o600 with ⟨fs1, _ | e⟩ <;> rfl
  refine ⟨h1, ?_, ?_⟩
  · intro e he
    have hsave : saveHandler fs w r t = (fs, w ++ [Call.Error e 500]) := by
      simp [saveHandler, Page.save, os.WriteFile, he, http.Error, StatusInternalServerError]
    refine ⟨hsave, ?_⟩
    intro url code hmem
    rw [hsave] at hmem
    simpa using hmem
  · intro hok
    have hfile : (saveHandler fs w r t).1.files ("data/" ++ t ++ ".txt") =
        Except.ok (r.FormValue "body").toUTF8.data.toList := by
      rw [h1]
      simp [os.WriteFile, hok]
    refine ⟨?_, hfile, ?_, ?_⟩
    · simp [saveHandler, Page.save, os.WriteFile, hok, http.Redirect, StatusFound]
    · intro name hname
      rw [h1]
      simp [os.WriteFile, hok, hname]
    · intro w2 r2
      exact (viewHandler_of_file templates (saveHandler fs w r t).1 w2 r2 t _ hfile).2

/-- Saving `hello` under `Test` on an empty file system replies with the single
redirect to `/view/Test` and leaves the five bytes of `hello` in
`data/Test.txt`; viewing `Test` then replies with the output of `view.html`,
the bytes of `Test`, a line break and the bytes of `hello`. On a file system
that refuses the write the reply is 500 with the error text. -/
theorem saveHandler_writes_then_redirects_witness :
    (saveHandler emptyFS [] saveTest "Test").2 = [Call.Redirect "/view/Test" 302] ∧
    (saveHandler emptyFS [] saveTest "Test").1.files "data/Test.txt" =
      Except.ok [104, 101, 108, 108, 111] ∧
    (viewHandler sampleTemplates (saveHandler emptyFS [] saveTest "Test").1 []
        (get "/view/Test") "Test").2 =
      [Call.Write [84, 101, 115, 116, 10, 104, 101, 108, 108, 111]] ∧
    (saveHandler readOnlyFS [] saveTest "Test").2 =
      [Call.Error "open data/Test.txt: permission denied" 500] :=
  ⟨((saveHandler_writes_then_redirects sampleTemplates emptyFS [] saveTest "Test").2.2 rfl).1,
    ((saveHandler_writes_then_redirects sampleTemplates emptyFS [] saveTest "Test").2.2
      rfl).2.1,
    congrArg Prod.snd
      (((saveHandler_writes_then_redirects sampleTemplates emptyFS [] saveTest "Test").2.2
        rfl).2.2.2 [] (get "/view/Test")),
    congrArg Prod.snd
      ((saveHandler_writes_then_redirects sampleTemplates readOnlyFS [] saveTest "Test").2.1
        "open data/Test.txt: permission denied" rfl).1⟩

/-- Claim C10. The map from a title to its file name `data/` + title + `.txt` is
injective, and for two distinct titles `t` and `u`, saving a page with title
`t` (whether the write succeeds or not) leaves the result of `loadPage u`
unchanged: the same failure, or the same page. -/
theorem save_leaves_other_titles (fs : FS) (t u : String) (b : List UInt8) (h : t ≠ u) :
    (∀ x y : String, "data/" ++ x ++ ".txt" = "data/" ++ y ++ ".txt" → x = y) ∧
    "data/" ++ u ++ ".txt" ≠ "data/" ++ t ++ ".txt" ∧
    loadPage (Page.save { Title := t, Body := b } fs).1 u = loadPage fs u := by
  have hne : "data/" ++ u ++ ".txt" ≠ "data/" ++ t ++ ".txt" :=
    fun he => h (filename_inj u t he).symm
  refine ⟨filename_inj, hne, ?_⟩
  simp only [Page.save, os.WriteFile]
  cases hw : fs.writeErr ("data/" ++ t ++ ".txt") with
  | some e => rfl
  | none => simp [loadPage, os.ReadFile, hne]

/-- Saving page `A` does not change what loading page `B` gives, here the page
saved before under `B`. -/
theorem save_leaves_other_titles_witness :
    loadPage (Page.save { Title := "A", Body := bytes "new" }
        (Page.save { Title := "B", Body := bytes "old" } emptyFS).1).1 "B" =
      loadPage (Page.save { Title := "B", Body := bytes "old" } emptyFS).1 "B" :=
  (save_leaves_other_titles (Page.save { Title := "B", Body := bytes "old" } emptyFS).1
    "A" "B" (bytes "new") (by decide)).2.2

end webapp
